import Mathlib

/-!
# Verification of the `0xBAFA.com` art-gallery script

Shallow embedding of `src/art/script.js` (the repository holds two
revisions of the script concatenated in that file; definitions below name
the revision they come from where it matters) together with theorems
settling the frozen claims about it.

Conventions of the embedding:
* JS `Date` values are `JsDateVal`: `valid ms` is a date with a numeric
  time value, `invalid` is `Invalid Date` (time value NaN), `null` is the
  JS `null` reference.
* JS numbers appearing as comparator results are `JsNum` (`num v` or `nan`).
* `Array.prototype.sort` is modelled as a stable insertion sort driven by
  the comparator, matching the ECMAScript requirement that a consistent
  comparator yields a stably sorted array.
* Host string/locale functions (`localeCompare`, `toLowerCase`,
  `toUpperCase`) are modelled character-wise over code points, a
  representative consistent collation.
* Host `Date`-string parsing is modelled by `parseTimestampChars`,
  accepting the timestamp shapes relevant to this program
  (`YYYY-MM-DD`, `YYYY-MM-DD HH:MM:SS`, `YYYY-MM-DDTHH:MM:SS`); every
  other string yields `Invalid Date`.
-/

namespace ArtGallery

/-- A JS `Date`-typed slot: a valid date (numeric time value), the
`Invalid Date` object (NaN time value), or the JS `null` reference. -/
inductive JsDateVal : Type
  | null : JsDateVal
  | invalid : JsDateVal
  | valid (ms : Int) : JsDateVal
  deriving DecidableEq, Repr

/-- A JS number that may be NaN (comparator results). -/
inductive JsNum : Type
  | nan : JsNum
  | num (v : Int) : JsNum
  deriving DecidableEq, Repr

/-- Numeric coercion of a `Date`-typed slot as JS subtraction performs it:
`null` coerces to `0`, `Invalid Date` to NaN (`none`), a valid date to its
time value. -/
def dateToNum : JsDateVal → Option Int
  | JsDateVal.null => some 0
  | JsDateVal.invalid => none
  | JsDateVal.valid ms => some ms

/-- JS subtraction of two `Date`-typed slots (`b.dateObj - a.dateObj`). -/
def jsSub (x y : JsDateVal) : JsNum :=
  match dateToNum x, dateToNum y with
  | some a, some b => JsNum.num (a - b)
  | _, _ => JsNum.nan

/-- `v <= 0` in JS: false when `v` is NaN. -/
def leZero : JsNum → Bool
  | JsNum.nan => false
  | JsNum.num v => decide (v ≤ 0)

/-- The numeric time value used for ordering statements: `null` acts as
epoch `0` (its JS coercion); `invalid` never occurs under the data-model
invariant and is mapped to `0` only to keep the function total. -/
def dateNum (d : JsDateVal) : Int :=
  (dateToNum d).getD 0

/-- Code-point comparison of character lists: the model of the host
collation backing `String.prototype.localeCompare`. -/
def cmpChars : List Char → List Char → Int
  | [], [] => 0
  | [], _ :: _ => -1
  | _ :: _, [] => 1
  | a :: as, b :: bs =>
      if a.val < b.val then -1
      else if b.val < a.val then 1
      else cmpChars as bs

/-- `a.localeCompare(b)`, modelled as code-point comparison (a
representative consistent collation). -/
def localeCompare (a b : String) : Int :=
  cmpChars a.data b.data

/-- The image record held in `this.images` (the data-model `ImageRecord`):
`title` a string, `dateObj` a `Date`-typed slot. -/
structure ImageRecord : Type where
  filename : String
  title : String
  src : String
  dateObj : JsDateVal
  description : Option String
  software : Option String
  deriving DecidableEq, Repr

/-- The date comparator `(a, b) => b.dateObj - a.dateObj` (script.js). -/
def dateComparator (a b : ImageRecord) : JsNum :=
  jsSub b.dateObj a.dateObj

/-- The name comparator `(a, b) => a.title.localeCompare(b.title)`. -/
def nameComparator (a b : ImageRecord) : JsNum :=
  JsNum.num (localeCompare a.title b.title)

/-- Stable insertion of `x` into `l` under a JS comparator: `x` goes
before the first element `y` with `cmp x y <= 0` (NaN compares as not
`<= 0`). -/
def jsInsert (cmp : α → α → JsNum) (x : α) : List α → List α
  | [] => [x]
  | y :: ys => if leZero (cmp x y) then x :: y :: ys else y :: jsInsert cmp x ys

/-- Model of `Array.prototype.sort(cmp)`: a stable insertion sort. For a
consistent comparator this agrees with the ECMAScript-mandated result. -/
def jsSortBy (cmp : α → α → JsNum) : List α → List α
  | [] => []
  | x :: xs => jsInsert cmp x (jsSortBy cmp xs)

/-- The gallery's mutable state relevant to sorting: the record collection
and the active sort key. -/
structure GalleryState : Type where
  images : List ImageRecord
  currentSort : String
  deriving Repr

/-- `ArtGallery.sortImages(sortType)` (script.js lines 435-443): always
overwrites `currentSort`; sorts in place by date (descending) or by name
(ascending locale comparison); any other key leaves the order alone. -/
def sortImages (sortType : String) (s : GalleryState) : GalleryState :=
  let s' : GalleryState := { s with currentSort := sortType }
  if sortType = "date" then
    { s' with images := jsSortBy dateComparator s'.images }
  else if sortType = "name" then
    { s' with images := jsSortBy nameComparator s'.images }
  else s'

/-- JS word character (`\w` = `[A-Za-z0-9_]`). -/
def isWordChar (c : Char) : Bool :=
  (('a' ≤ c) && (c ≤ 'z')) || (('A' ≤ c) && (c ≤ 'Z')) ||
    (('0' ≤ c) && (c ≤ '9')) || (c = '_')

/-- JS decimal digit (`\d`). -/
def isDigitChar (c : Char) : Bool :=
  ('0' ≤ c) && (c ≤ '9')

/-- ASCII model of `String.prototype.toUpperCase` on one character. -/
def upperChar (c : Char) : Char :=
  if ('a' ≤ c) && (c ≤ 'z') then Char.ofNat (c.toNat - 32) else c

/-- `.replace(/[-_]/g, ' ')`. -/
def replaceSeps (l : List Char) : List Char :=
  l.map (fun c => if c = '-' || c = '_' then ' ' else c)

/-- `.replace(/\b\w/g, l => l.toUpperCase())`: uppercase each word
character whose predecessor is not a word character.  The Boolean argument
records whether the previous character was a word character. -/
def capWords : Bool → List Char → List Char
  | _, [] => []
  | prevW, c :: rest =>
      (if !prevW && isWordChar c then upperChar c else c) ::
        capWords (isWordChar c) rest

/-- `.replace(/\d+/g, m => '#' + m)`: insert `'#'` before each maximal
run of digits.  The Boolean argument records whether the previous
character was a digit. -/
def hashNums : Bool → List Char → List Char
  | _, [] => []
  | prevD, c :: rest =>
      if isDigitChar c && !prevD then '#' :: c :: hashNums true rest
      else c :: hashNums (isDigitChar c) rest

/-- `ArtGallery.generateTitle(filename)` (script.js lines 362-368). -/
def generateTitle (filename : String) : String :=
  String.mk (hashNums false (capWords false (replaceSeps filename.data)))

/-- ASCII model of `String.prototype.toLowerCase` on one character. -/
def lowerChar (c : Char) : Char :=
  if ('A' ≤ c) && (c ≤ 'Z') then Char.ofNat (c.toNat + 32) else c

/-- Index of the last occurrence of `c` in `l` (`String.prototype.lastIndexOf`
returns `-1`, modelled as `none`, when absent). -/
def lastIdx (c : Char) : List Char → Option Nat
  | [] => none
  | x :: xs =>
      match lastIdx c xs with
      | some i => some (i + 1)
      | none => if x = c then some 0 else none

/-- `file.name.toLowerCase().substring(file.name.lastIndexOf('.'))`
(script.js line 208): `substring` clamps the `-1` of a dotless name to `0`,
so the "extension" of a dotless name is its entire lowercase text. -/
def extOf (name : String) : String :=
  match lastIdx '.' name.data with
  | none => String.mk (name.data.map lowerChar)
  | some i => String.mk ((name.data.map lowerChar).drop i)

/-- The allow list of image extensions (script.js line 206). -/
def imageExtensions : List String :=
  [".jpg", ".jpeg", ".png", ".gif", ".webp"]

/-- A file entry of the directory-listing API response (`name`, and the
`sha` field used as a date fallback; `none` models an absent field). -/
structure FileEntry : Type where
  name : String
  sha : Option String
  deriving DecidableEq, Repr

/-- The extension filter of `loadImagesFromGitHub` (script.js lines 207-210). -/
def isImageFile (f : FileEntry) : Bool :=
  imageExtensions.contains (extOf f.name)

/-- `loadImagesFromGitHub` after a successful listing (script.js lines
205-217): filter by extension, load each file (`load f = none` models a
rejected image whose promise resolved to `null`), then filter out the
`null`s. -/
def imagesOfListing (files : List FileEntry)
    (load : FileEntry → Option ImageRecord) : List ImageRecord :=
  ((files.filter isImageFile).map load).filterMap id

/-- Digit test reused by the timestamp parser. -/
def digOk (c : Char) : Bool := isDigitChar c

/-- Numeric value of a digit character. -/
def digVal (c : Char) : Int := Int.ofNat c.toNat - 48

/-- Modelled from the spec: the host's `Date`-string parsing ("reformatted
… to a parseable timestamp string").  Accepts the timestamp shapes this
program can care about — `YYYY-MM-DD`, `YYYY-MM-DD HH:MM:SS` and
`YYYY-MM-DDTHH:MM:SS` with all-digit fields — and returns an
order-preserving numeric code; every other string is Invalid Date. -/
def parseTimestampChars : List Char → Option Int
  | [y1, y2, y3, y4, '-', m1, m2, '-', d1, d2] =>
      if digOk y1 && digOk y2 && digOk y3 && digOk y4 &&
          digOk m1 && digOk m2 && digOk d1 && digOk d2 then
        some (((((digVal y1 * 10 + digVal y2) * 10 + digVal y3) * 10 + digVal y4)
            * 100 + digVal m1 * 10 + digVal m2) * 100 + digVal d1 * 10 + digVal d2)
      else none
  | [y1, y2, y3, y4, '-', m1, m2, '-', d1, d2, sp, h1, h2, ':', n1, n2, ':', s1, s2] =>
      if (sp = ' ' || sp = 'T') && digOk y1 && digOk y2 && digOk y3 && digOk y4 &&
          digOk m1 && digOk m2 && digOk d1 && digOk d2 &&
          digOk h1 && digOk h2 && digOk n1 && digOk n2 && digOk s1 && digOk s2 then
        some ((((((((digVal y1 * 10 + digVal y2) * 10 + digVal y3) * 10 + digVal y4)
            * 100 + digVal m1 * 10 + digVal m2) * 100 + digVal d1 * 10 + digVal d2)
            * 100 + digVal h1 * 10 + digVal h2) * 100 + digVal n1 * 10 + digVal n2)
            * 100 + digVal s1 * 10 + digVal s2)
      else none
  | _ => none

/-- `new Date(s)` for a string argument, under the parsing model above. -/
def jsNewDate (s : String) : JsDateVal :=
  match parseTimestampChars s.data with
  | some v => JsDateVal.valid v
  | none => JsDateVal.invalid

/-- JS `a || b` for nullable strings: `a` wins when present and non-empty
(the empty string is falsy). -/
def jsOrStr : Option String → Option String → Option String
  | some s, b => if s = "" then b else some s
  | none, b => b

/-- Truthiness of a nullable string. -/
def truthyStr : Option String → Bool
  | some s => !(s = "")
  | none => false

/-- The embedded tags the extractor reads (absent tags are `none`). -/
structure ExifTags : Type where
  DateTimeOriginal : Option String := none
  DateTime : Option String := none
  DateTimeDigitized : Option String := none
  ImageDescription : Option String := none
  XPTitle : Option String := none
  XPSubject : Option String := none
  XPComment : Option String := none
  UserComment : Option String := none
  Make : Option String := none
  Model : Option String := none
  Software : Option String := none
  ProcessingSoftware : Option String := none
  deriving Repr

/-- `allTags.DateTimeOriginal || allTags.DateTime || allTags.DateTimeDigitized`
(script.js line 302). -/
def exifDateTaken (t : ExifTags) : Option String :=
  jsOrStr t.DateTimeOriginal (jsOrStr t.DateTime t.DateTimeDigitized)

/-- Match of the regex `-(\d{2}:\d{2}:\d{2})` right after a `'-'`: two
digits, `':'`, two digits, `':'`, two digits. -/
def timePatAt : List Char → Bool
  | a :: b :: ':' :: c :: d :: ':' :: e :: f :: _ =>
      digOk a && digOk b && digOk c && digOk d && digOk e && digOk f
  | _ => false

/-- The second, non-global replace of line 305 (pattern
`-(\d{2}:\d{2}:\d{2})`, replacement a space plus the group): replace the
first `'-'` that heads a time pattern by `' '`, keeping the group; no
further replacement. -/
def fixTimeAux : List Char → List Char
  | [] => []
  | c :: rest =>
      if c = '-' && timePatAt rest then ' ' :: rest
      else c :: fixTimeAux rest

/-- The date-string rewrite of `extractImageMetadata` (script.js line
305): globally replace `':'` by `'-'`, then apply the non-global
time-pattern replace above. -/
def exifToDateStr (s : String) : String :=
  String.mk (fixTimeAux (s.data.map (fun c => if c = ':' then '-' else c)))

/-- The metadata object built by `extractImageMetadata` when the tag
reader ran (script.js lines 293-319): every one of these keys is present
on the object (possibly with value `null`). -/
structure ExifMetadata : Type where
  dateObj : JsDateVal
  title : Option String
  description : Option String
  camera : Option String
  software : Option String
  deriving DecidableEq, Repr

/-- `extractImageMetadata` over the tag set (script.js lines 289-340). -/
def extractImageMetadata (t : ExifTags) : ExifMetadata :=
  { dateObj :=
      match exifDateTaken t with
      | some d => if d = "" then JsDateVal.null else jsNewDate (exifToDateStr d)
      | none => JsDateVal.null
  , title := jsOrStr t.ImageDescription (jsOrStr t.XPTitle t.XPSubject)
  , description := jsOrStr t.XPComment (jsOrStr t.UserComment t.ImageDescription)
  , camera :=
      if truthyStr t.Make && truthyStr t.Model then
        some (t.Make.getD "" ++ " " ++ t.Model.getD "")
      else none
  , software := jsOrStr t.Software t.ProcessingSoftware }

/-- `name.replace(/\.[^/.]+$/, "")`: strip a final dot-extension that is
non-empty and free of `/` and `.`. -/
def stripExt (name : String) : String :=
  match lastIdx '.' name.data with
  | none => name
  | some i =>
      let suffix := name.data.drop (i + 1)
      if suffix ≠ [] && suffix.all (fun c => c ≠ '/' && c ≠ '.') then
        String.mk (name.data.take i)
      else name

/-- `new Date(file.sha || Date.now())` (script.js line 243): the sha
string, when present and non-empty, is handed to the `Date` constructor;
otherwise the current time. -/
def defaultDate (file : FileEntry) (now : Int) : JsDateVal :=
  match file.sha with
  | some s => if s = "" then JsDateVal.valid now else jsNewDate s
  | none => JsDateVal.valid now

/-- JS `a || b` where `a` is a `Date`-typed slot: `null` is falsy but
`Invalid Date` is a (truthy) object. -/
def jsOrDate : JsDateVal → JsDateVal → JsDateVal
  | JsDateVal.null, b => b
  | a, _ => a

/-- The object resolved by `loadImageWithMetadata` (script.js lines
239-249); `title` is nullable because the spread can make it so. -/
structure ResolvedRecord : Type where
  filename : String
  title : Option String
  src : String
  dateObj : JsDateVal
  description : Option String
  camera : Option String
  software : Option String
  dimensions : String
  deriving DecidableEq, Repr

/-- `metadata.title` when `metadata` may be the empty object: absent keys
read as `undefined`, modelled as `none`. -/
def mdTitle : Option ExifMetadata → Option String
  | none => none
  | some m => m.title

/-- `metadata.dateObj` with absent key reading as `undefined`, which is
falsy just like `null`. -/
def mdDate : Option ExifMetadata → JsDateVal
  | none => JsDateVal.null
  | some m => m.dateObj

/-- The record literal resolved by `loadImageWithMetadata` on a successful
image load (script.js lines 239-249).  `metadata = none` models
`extractImageMetadata` resolving the empty object `{}` (tag reader
unavailable); `metadata = some m` models the key-ful metadata object.  The
trailing `...metadata` spread overwrites every key present on `metadata` —
including `dateObj` and `title` even when their values are `null`. -/
def buildRecord (file : FileEntry) (metadata : Option ExifMetadata)
    (now : Int) (dims : String) : ResolvedRecord :=
  let base : ResolvedRecord :=
    { filename := file.name
    , title := some ((jsOrStr (mdTitle metadata)
        (some (generateTitle (stripExt file.name)))).getD "")
    , src := "../images/" ++ file.name
    , dateObj := jsOrDate (mdDate metadata) (defaultDate file now)
    , description := metadata.bind (fun m => m.description)
    , camera := metadata.bind (fun m => m.camera)
    , software := metadata.bind (fun m => m.software)
    , dimensions := dims }
  match metadata with
  | none => base
  | some m =>
      { base with
        dateObj := m.dateObj
        title := m.title
        description := m.description
        camera := m.camera
        software := m.software }

/-- The three metadata-source strategies. -/
inductive Strategy : Type
  | staticDescriptor : Strategy
  | directoryListing : Strategy
  | filenameProbing : Strategy
  deriving DecidableEq, Repr

/-- An entry of the static descriptor file `metadata.json`. -/
structure MetaImg : Type where
  filename : String
  date : String
  title : String
  deriving Repr

/-- The record built from one `metadata.json` entry (script.js lines
20-26): spread of the entry plus resolved `src` and parsed `dateObj`. -/
def staticRecordOf (img : MetaImg) : ImageRecord :=
  { filename := img.filename
  , title := img.title
  , src := "../images/" ++ img.filename
  , dateObj := jsNewDate img.date
  , description := none
  , software := none }

/-- The fixed candidate list of the filename-probing fallback
(script.js lines 372-377). -/
def commonPatterns : List String :=
  [ "character1.jpg", "character2.jpg", "character3.jpg", "character4.jpg", "character5.jpg"
  , "character1.png", "character2.png", "character3.png", "character4.png", "character5.png"
  , "art1.jpg", "art2.jpg", "art3.jpg", "art4.jpg", "art5.jpg"
  , "drawing1.jpg", "drawing2.jpg", "drawing3.jpg", "drawing4.jpg", "drawing5.jpg" ]

/-- `loadImagesFallback` (script.js lines 370-414): probe each candidate
name in order; only names whose image loads contribute a record
(`probe p = none` models a failed load). -/
def loadImagesFallback (probe : String → Option ImageRecord) : List ImageRecord :=
  commonPatterns.filterMap probe

/-- The metadata-acquisition chain.  The repository's script exists in two
revisions: revision 1's `loadMetadata` (lines 14-36) tries the static
descriptor and on any fetch/parse failure falls through to the
directory-based loader; revision 2 implements that loader as
`loadImagesFromGitHub` (lines 180-223), which on listing failure falls
through to `loadImagesFallback`.  `staticRes`/`listingRes` are the
parsed results of the two fetches (`none` = the fetch threw or the body
failed to parse).  Returns the strategies invoked, in order, and the
collection after the initial `sortImages('date')`. -/
def loadChain (staticRes : Option (List MetaImg))
    (listingRes : Option (List FileEntry))
    (load : FileEntry → Option ImageRecord)
    (probe : String → Option ImageRecord) :
    List Strategy × List ImageRecord :=
  match staticRes with
  | some imgs =>
      ([Strategy.staticDescriptor],
        jsSortBy dateComparator (imgs.map staticRecordOf))
  | none =>
      match listingRes with
      | some files =>
          ([Strategy.staticDescriptor, Strategy.directoryListing],
            jsSortBy dateComparator (imagesOfListing files load))
      | none =>
          ([Strategy.staticDescriptor, Strategy.directoryListing,
              Strategy.filenameProbing],
            jsSortBy dateComparator (loadImagesFallback probe))

/-- The loading-element text set by `renderGallery` on an empty
collection (script.js line 453). -/
def noArtworkText : String :=
  "No artwork found. Please add images and metadata.json"

/-- The DOM surface the view writes to: the grid of cards (one per
rendered record), the loading element's text and visibility, and the
gallery's `loaded` class. -/
structure GalleryDom : Type where
  cards : List ImageRecord
  loadingText : String
  loadingHidden : Bool
  galleryLoaded : Bool
  deriving Repr

/-- `renderGallery` (script.js lines 445-481): clear the grid; on an
empty collection set the instructional loading text and stop (a total
function — no error is ever thrown); otherwise render one card per record,
hide the loading element and mark the gallery loaded. -/
def renderGallery (images : List ImageRecord) (dom : GalleryDom) : GalleryDom :=
  let cleared : GalleryDom := { dom with cards := [] }
  if images.length = 0 then
    { cleared with loadingText := noArtworkText }
  else
    { cleared with
      cards := images
      loadingHidden := true
      galleryLoaded := true }

/-! ## Lemmas about the sort model -/

theorem jsInsert_perm (cmp : α → α → JsNum) (x : α) :
    ∀ l : List α, List.Perm (jsInsert cmp x l) (x :: l)
  | [] => List.Perm.refl _
  | y :: ys => by
      by_cases h : leZero (cmp x y) = true
      · simp [jsInsert, h]
      · simp only [jsInsert, h, if_false]
        exact ((jsInsert_perm cmp x ys).cons y).trans (List.Perm.swap x y ys)

theorem jsSortBy_perm (cmp : α → α → JsNum) :
    ∀ l : List α, List.Perm (jsSortBy cmp l) l
  | [] => List.Perm.refl _
  | x :: xs => (jsInsert_perm cmp x _).trans ((jsSortBy_perm cmp xs).cons x)

theorem chain'_jsInsert (cmp : α → α → JsNum) (x : α) :
    ∀ {l : List α},
      (∀ b ∈ l, leZero (cmp x b) = true ∨ leZero (cmp b x) = true) →
      List.Chain' (fun a b => leZero (cmp a b) = true) l →
      List.Chain' (fun a b => leZero (cmp a b) = true) (jsInsert cmp x l) := by
  intro l
  induction l with
  | nil => intro _ _; simp [jsInsert]
  | cons y ys ih =>
    intro htot hs
    by_cases h : leZero (cmp x y) = true
    · simp only [jsInsert, h, if_true]
      exact List.chain'_cons.mpr ⟨h, hs⟩
    · simp only [jsInsert, h, if_false]
      have hyx : leZero (cmp y x) = true := by
        rcases htot y (List.mem_cons_self y ys) with h1 | h1
        · exact absurd h1 h
        · exact h1
      have hins := ih (fun b hb => htot b (List.mem_cons_of_mem _ hb)) hs.tail
      refine List.chain'_cons'.mpr ⟨?_, hins⟩
      intro z hz
      rw [Option.mem_def] at hz
      cases ys with
      | nil =>
        simp only [jsInsert, List.head?, Option.some.injEq] at hz
        exact hz ▸ hyx
      | cons y' ys' =>
        cases h2 : leZero (cmp x y') with
        | true =>
          simp only [jsInsert, h2, if_true, List.head?, Option.some.injEq] at hz
          exact hz ▸ hyx
        | false =>
          simp only [jsInsert, h2, Bool.false_eq_true, if_false, List.head?,
            Option.some.injEq] at hz
          exact hz ▸ (List.chain'_cons.mp hs).1

theorem chain'_jsSortBy (cmp : α → α → JsNum) :
    ∀ {l : List α},
      (∀ a ∈ l, ∀ b ∈ l, leZero (cmp a b) = true ∨ leZero (cmp b a) = true) →
      List.Chain' (fun a b => leZero (cmp a b) = true) (jsSortBy cmp l) := by
  intro l
  induction l with
  | nil => intro _; simp [jsSortBy]
  | cons x xs ih =>
    intro htot
    have hmem : ∀ b ∈ jsSortBy cmp xs, b ∈ xs :=
      fun b hb => (jsSortBy_perm cmp xs).mem_iff.mp hb
    exact chain'_jsInsert cmp x
      (fun b hb => htot x (List.mem_cons_self x xs) b
        (List.mem_cons_of_mem _ (hmem b hb)))
      (ih (fun a ha b hb =>
        htot a (List.mem_cons_of_mem _ ha) b (List.mem_cons_of_mem _ hb)))

theorem jsSortBy_of_chain' (cmp : α → α → JsNum) :
    ∀ {l : List α}, List.Chain' (fun a b => leZero (cmp a b) = true) l →
      jsSortBy cmp l = l
  | [], _ => rfl
  | x :: xs, h => by
      have ht := jsSortBy_of_chain' cmp (l := xs) h.tail
      simp only [jsSortBy, ht]
      cases xs with
      | nil => rfl
      | cons y ys =>
        have hxy : leZero (cmp x y) = true := (List.chain'_cons.mp h).1
        simp [jsInsert, hxy]

theorem chain'_imp_of_mem {R S : α → α → Prop} :
    ∀ {l : List α}, (∀ a ∈ l, ∀ b ∈ l, R a b → S a b) →
      List.Chain' R l → List.Chain' S l
  | [], _, _ => List.chain'_nil
  | [a], _, _ => List.chain'_singleton a
  | a :: b :: l, h, hc => by
      rw [List.chain'_cons] at hc ⊢
      refine ⟨h a (List.mem_cons_self _ _)
        b (List.mem_cons_of_mem _ (List.mem_cons_self _ _)) hc.1, ?_⟩
      exact chain'_imp_of_mem
        (fun x hx y hy => h x (List.mem_cons_of_mem _ hx) y (List.mem_cons_of_mem _ hy))
        hc.2

/-! ## Lemmas about the comparators -/

theorem dateToNum_of_ne_invalid {d : JsDateVal} (h : d ≠ JsDateVal.invalid) :
    dateToNum d = some (dateNum d) := by
  cases d with
  | null => rfl
  | invalid => exact absurd rfl h
  | valid ms => rfl

theorem dateComparator_total {a b : ImageRecord}
    (ha : a.dateObj ≠ JsDateVal.invalid) (hb : b.dateObj ≠ JsDateVal.invalid) :
    leZero (dateComparator a b) = true ∨ leZero (dateComparator b a) = true := by
  simp only [dateComparator, jsSub, dateToNum_of_ne_invalid ha,
    dateToNum_of_ne_invalid hb, leZero, decide_eq_true_eq]
  omega

theorem dateComparator_le {a b : ImageRecord}
    (ha : a.dateObj ≠ JsDateVal.invalid) (hb : b.dateObj ≠ JsDateVal.invalid)
    (h : leZero (dateComparator a b) = true) :
    dateNum b.dateObj ≤ dateNum a.dateObj := by
  simp only [dateComparator, jsSub, dateToNum_of_ne_invalid ha,
    dateToNum_of_ne_invalid hb, leZero, decide_eq_true_eq] at h
  omega

theorem cmpChars_total : ∀ a b : List Char, cmpChars a b ≤ 0 ∨ cmpChars b a ≤ 0
  | [], [] => Or.inl (by simp [cmpChars])
  | [], _ :: _ => Or.inl (by simp [cmpChars])
  | _ :: _, [] => Or.inr (by simp [cmpChars])
  | a :: as, b :: bs => by
      by_cases h1 : a.val < b.val
      · exact Or.inl (by simp [cmpChars, h1])
      · by_cases h2 : b.val < a.val
        · exact Or.inr (by simp [cmpChars, h2])
        · have := cmpChars_total as bs
          simpa [cmpChars, h1, h2] using this

theorem nameComparator_total (a b : ImageRecord) :
    leZero (nameComparator a b) = true ∨ leZero (nameComparator b a) = true := by
  simp only [nameComparator, leZero, decide_eq_true_eq, localeCompare]
  exact cmpChars_total a.title.data b.title.data

theorem nameComparator_le {a b : ImageRecord}
    (h : leZero (nameComparator a b) = true) :
    localeCompare a.title b.title ≤ 0 := by
  simpa only [nameComparator, leZero, decide_eq_true_eq] using h

/-! ## Lemmas about the extension filter -/

theorem lowerChar_eq_dot {c : Char} (h : lowerChar c = '.') : c = '.' := by
  unfold lowerChar at h
  by_cases hr : (('A' ≤ c) && (c ≤ 'Z')) = true
  · exfalso
    rw [if_pos hr] at h
    have h1 : 'A' ≤ c := of_decide_eq_true ((Bool.and_eq_true _ _).mp hr).1
    have h2 : c ≤ 'Z' := of_decide_eq_true ((Bool.and_eq_true _ _).mp hr).2
    have hb1 : 65 ≤ c.toNat := by
      simp only [Char.le_def, UInt32.le_def, BitVec.le_def] at h1; exact h1
    have hb2 : c.toNat ≤ 90 := by
      simp only [Char.le_def, UInt32.le_def, BitVec.le_def] at h2; exact h2
    have hv : (c.toNat + 32).isValidChar := Or.inl (by omega)
    have htn : (Char.ofNat (c.toNat + 32)).toNat = c.toNat + 32 := by
      rw [Char.ofNat, dif_pos hv]; rfl
    rw [h] at htn
    have h46 : ('.' : Char).toNat = 46 := rfl
    rw [h46] at htn
    omega
  · rwa [if_neg hr] at h

theorem lastIdx_eq_none {c : Char} :
    ∀ {l : List Char}, c ∉ l → lastIdx c l = none
  | [], _ => rfl
  | x :: xs, h => by
      have hx : ¬x = c := fun e => h (e ▸ List.mem_cons_self x xs)
      have hxs : c ∉ xs := fun m => h (List.mem_cons_of_mem _ m)
      simp [lastIdx, lastIdx_eq_none hxs, hx]

theorem dot_not_mem_map_lower {l : List Char} (h : '.' ∉ l) :
    '.' ∉ l.map lowerChar := by
  intro hm
  rcases List.mem_map.mp hm with ⟨c, hc, he⟩
  exact h (lowerChar_eq_dot he ▸ hc)

theorem not_mem_imageExtensions {t : String} (h : '.' ∉ t.data) :
    imageExtensions.contains t = false := by
  by_contra hc
  have hmem : t ∈ imageExtensions := by
    have := Bool.of_not_eq_false hc
    simpa [List.contains] using this
  have hcases : t = ".jpg" ∨ t = ".jpeg" ∨ t = ".png" ∨ t = ".gif" ∨ t = ".webp" := by
    simpa only [imageExtensions, List.mem_cons, List.not_mem_nil, or_false] using hmem
  have : '.' ∈ t.data := by
    rcases hcases with h1 | h1 | h1 | h1 | h1 <;> (rw [h1]; decide)
  exact h this

/-! ## Dead-replace lemmas for the EXIF date rewrite -/

theorem mem_of_timePatAt {l : List Char} (h : timePatAt l = true) : ':' ∈ l := by
  unfold timePatAt at h
  split at h
  · simp
  · cases h

theorem fixTimeAux_id : ∀ {l : List Char}, ':' ∉ l → fixTimeAux l = l
  | [], _ => rfl
  | c :: rest, h => by
      have hrest : ':' ∉ rest := fun m => h (List.mem_cons_of_mem _ m)
      have hpat : timePatAt rest = false := by
        cases hp : timePatAt rest with
        | false => rfl
        | true => exact absurd (List.mem_cons_of_mem c (mem_of_timePatAt hp)) h
      simp [fixTimeAux, hpat, fixTimeAux_id hrest]

theorem colon_not_mem_replaced (l : List Char) :
    ':' ∉ l.map (fun c => if c = ':' then '-' else c) := by
  intro hm
  rcases List.mem_map.mp hm with ⟨c, _, he⟩
  by_cases hc : c = ':'
  · rw [if_pos hc] at he; cases he
  · rw [if_neg hc] at he; exact hc he

/-! ## Concrete data used by witnesses and demonstrations -/

def witnessRecA : ImageRecord :=
  { filename := "a.jpg", title := "beta", src := "../images/a.jpg"
  , dateObj := JsDateVal.valid 10, description := none, software := none }

def witnessRecB : ImageRecord :=
  { filename := "b.jpg", title := "alpha", src := "../images/b.jpg"
  , dateObj := JsDateVal.valid 20, description := none, software := none }

def witnessState : GalleryState :=
  { images := [witnessRecA, witnessRecB], currentSort := "date" }

def demoFiles : List FileEntry :=
  [ { name := "a.jpg", sha := none }
  , { name := "b.png", sha := none }
  , { name := "notes.txt", sha := none } ]

def demoLoad (f : FileEntry) : Option ImageRecord :=
  if f.name = "b.png" then none
  else some { filename := f.name, title := "t", src := "../images/" ++ f.name
            , dateObj := JsDateVal.valid 0, description := none, software := none }

/-! ## The claims -/

/-- C1: for every non-empty record collection satisfying the data-model
invariant (no Invalid-Date `dateObj`), after `sortImages('date')` the
sequence of `dateObj` time values is non-increasing (newest first), and
after `sortImages('name')` the sequence of titles is non-decreasing under
`localeCompare`. -/
theorem sortImages_date_name_order (s : GalleryState)
    (hne : s.images ≠ [])
    (hv : ∀ r ∈ s.images, r.dateObj ≠ JsDateVal.invalid) :
    List.Chain' (fun a b => dateNum b.dateObj ≤ dateNum a.dateObj)
      (sortImages "date" s).images ∧
    List.Chain' (fun a b => localeCompare a.title b.title ≤ 0)
      (sortImages "name" s).images := by
  constructor
  · have himg : (sortImages "date" s).images = jsSortBy dateComparator s.images := rfl
    rw [himg]
    have hch := chain'_jsSortBy dateComparator
      (l := s.images) (fun a ha b hb => dateComparator_total (hv a ha) (hv b hb))
    refine chain'_imp_of_mem ?_ hch
    intro a ha b hb hab
    have ha' := (jsSortBy_perm dateComparator s.images).mem_iff.mp ha
    have hb' := (jsSortBy_perm dateComparator s.images).mem_iff.mp hb
    exact dateComparator_le (hv a ha') (hv b hb') hab
  · have himg : (sortImages "name" s).images = jsSortBy nameComparator s.images := rfl
    rw [himg]
    have hch := chain'_jsSortBy nameComparator
      (l := s.images) (fun a _ b _ => nameComparator_total a b)
    exact hch.imp (fun {a b} hab => nameComparator_le hab)

/-- Witness for C1 at a concrete two-record collection. -/
theorem sortImages_date_name_order_check :
    witnessState.images ≠ [] ∧
    (∀ r ∈ witnessState.images, r.dateObj ≠ JsDateVal.invalid) ∧
    (List.Chain' (fun a b => dateNum b.dateObj ≤ dateNum a.dateObj)
        (sortImages "date" witnessState).images ∧
      List.Chain' (fun a b => localeCompare a.title b.title ≤ 0)
        (sortImages "name" witnessState).images) :=
  ⟨by decide, by decide,
    sortImages_date_name_order witnessState (by decide) (by decide)⟩

/-- C2 is violated by the code: when the tag reader ran but produced no
date, `extractImageMetadata` resolves a metadata object whose `dateObj`
key is `null`; the `...metadata` spread in `loadImageWithMetadata`
re-applies that `null` after the `metadata.dateObj || new Date(...)`
default was computed, so the resolved record's `dateObj` is `null` (first
conjunct) even though the pre-spread value was not `null` (second
conjunct).  The default itself only survives when the tag reader was
unavailable (third conjunct); moreover with a `sha` present the default
`new Date(file.sha)` is itself Invalid Date (fourth conjunct). -/
theorem buildRecord_dateObj_null_bug :
    (buildRecord { name := "art.jpg", sha := some "abc123" }
      (some (extractImageMetadata {})) 1000 "10 x 10").dateObj = JsDateVal.null ∧
    jsOrDate (mdDate (some (extractImageMetadata {})))
      (defaultDate { name := "art.jpg", sha := some "abc123" } 1000) ≠ JsDateVal.null ∧
    (buildRecord { name := "art.jpg", sha := none } none 1000 "10 x 10").dateObj
      = JsDateVal.valid 1000 ∧
    defaultDate { name := "art.jpg", sha := some "abc123" } 1000 = JsDateVal.invalid :=
  ⟨rfl, by decide, rfl, rfl⟩

/-- C3 is violated by the code: the first (global) replace removes every
colon, so the second replace's pattern, which requires colons, can never
match — on any tag value the rewrite equals the plain colon-to-dash
substitution (first conjunct).  On the well-formed tag value
`2024:01:15 10:30:00` the result is `2024-01-15 10-30-00` (second
conjunct), which is not a parseable timestamp (third conjunct), unlike the
intended `2024-01-15 10:30:00` (fourth conjunct); the resulting `dateObj`
is Invalid Date (fifth conjunct). -/
theorem exifDate_reformat_dead_replace :
    (∀ s : String,
      exifToDateStr s = String.mk (s.data.map (fun c => if c = ':' then '-' else c))) ∧
    exifToDateStr "2024:01:15 10:30:00" = "2024-01-15 10-30-00" ∧
    jsNewDate "2024-01-15 10-30-00" = JsDateVal.invalid ∧
    jsNewDate "2024-01-15 10:30:00" = JsDateVal.valid 20240115103000 ∧
    (extractImageMetadata { DateTimeOriginal := some "2024:01:15 10:30:00" }).dateObj
      = JsDateVal.invalid :=
  ⟨fun s => congrArg String.mk (fixTimeAux_id (colon_not_mem_replaced s.data)),
    by decide, by decide, by decide, by decide⟩

/-- C4: the strategies form a fixed fallback chain — a parsed static
descriptor invokes only the static strategy; a failed static fetch/parse
invokes the directory listing next, and the filename probing only after
the listing also failed. -/
theorem loadChain_strategy_order (d : List MetaImg) (fs : List FileEntry)
    (lRes : Option (List FileEntry))
    (load : FileEntry → Option ImageRecord) (probe : String → Option ImageRecord) :
    (loadChain (some d) lRes load probe).1 = [Strategy.staticDescriptor] ∧
    (loadChain none (some fs) load probe).1
      = [Strategy.staticDescriptor, Strategy.directoryListing] ∧
    (loadChain none none load probe).1
      = [Strategy.staticDescriptor, Strategy.directoryListing,
          Strategy.filenameProbing] :=
  ⟨rfl, rfl, rfl⟩

/-- C5: a listing of N file entries yields at most N records — a record
only per entry passing the extension filter whose load succeeded; a
failed load is dropped without affecting the others (demonstrated on a
three-entry listing whose middle image fails to load). -/
theorem imagesOfListing_card_bound (files : List FileEntry)
    (load : FileEntry → Option ImageRecord) :
    (imagesOfListing files load).length ≤ files.length ∧
    (imagesOfListing demoFiles demoLoad).length = 1 ∧
    demoFiles.length = 3 := by
  refine ⟨?_, by decide, by decide⟩
  calc (imagesOfListing files load).length
      ≤ ((files.filter isImageFile).map load).length :=
        List.length_filterMap_le _ _
    _ = (files.filter isImageFile).length := List.length_map _ _
    _ ≤ files.length := List.length_filter_le _ _

/-- C6: when every strategy is exhausted (static descriptor and listing
failed, every probe failed), the collection is empty and rendering shows
no cards and the instructional no-artwork text; `renderGallery` is a total
function, so no error reaches the user. -/
theorem exhausted_load_shows_no_artwork (load : FileEntry → Option ImageRecord)
    (dom : GalleryDom) :
    (loadChain none none load (fun _ => none)).2 = [] ∧
    (renderGallery (loadChain none none load (fun _ => none)).2 dom).cards = [] ∧
    (renderGallery (loadChain none none load (fun _ => none)).2 dom).loadingText
      = noArtworkText :=
  ⟨rfl, rfl, rfl⟩

/-- C7: title auto-generation is a pure function of the extensionless
filename; in particular it maps `my_art-02` to `My Art #02`. -/
theorem generateTitle_example : generateTitle "my_art-02" = "My Art #02" := by
  decide

/-- C8: sorting twice by the same key yields the same order as sorting
once, for each key in date and name, on collections satisfying the
data-model invariant (no Invalid-Date `dateObj`). -/
theorem sortImages_idem (s : GalleryState)
    (hv : ∀ r ∈ s.images, r.dateObj ≠ JsDateVal.invalid) :
    (sortImages "date" (sortImages "date" s)).images
      = (sortImages "date" s).images ∧
    (sortImages "name" (sortImages "name" s)).images
      = (sortImages "name" s).images := by
  constructor
  · have h1 : (sortImages "date" (sortImages "date" s)).images
        = jsSortBy dateComparator (jsSortBy dateComparator s.images) := rfl
    have h2 : (sortImages "date" s).images = jsSortBy dateComparator s.images := rfl
    rw [h1, h2]
    exact jsSortBy_of_chain' dateComparator
      (chain'_jsSortBy dateComparator
        (fun a ha b hb => dateComparator_total (hv a ha) (hv b hb)))
  · have h1 : (sortImages "name" (sortImages "name" s)).images
        = jsSortBy nameComparator (jsSortBy nameComparator s.images) := rfl
    have h2 : (sortImages "name" s).images = jsSortBy nameComparator s.images := rfl
    rw [h1, h2]
    exact jsSortBy_of_chain' nameComparator
      (chain'_jsSortBy nameComparator (fun a _ b _ => nameComparator_total a b))

/-- Witness for C8 at a concrete two-record collection. -/
theorem sortImages_idem_check :
    (∀ r ∈ witnessState.images, r.dateObj ≠ JsDateVal.invalid) ∧
    ((sortImages "date" (sortImages "date" witnessState)).images
        = (sortImages "date" witnessState).images ∧
      (sortImages "name" (sortImages "name" witnessState)).images
        = (sortImages "name" witnessState).images) :=
  ⟨by decide, sortImages_idem witnessState (by decide)⟩

/-- C9: a directory-listing entry whose name has no dot is never accepted
by the extension filter — the computed extension is the entire lowercase
name, which can equal no dot-prefixed allow-list entry. -/
theorem dotless_name_not_image (fe : FileEntry) (h : '.' ∉ fe.name.data) :
    isImageFile fe = false := by
  have hlast : lastIdx '.' fe.name.data = none := lastIdx_eq_none h
  have hext : extOf fe.name = String.mk (fe.name.data.map lowerChar) := by
    rw [extOf, hlast]
  rw [isImageFile, hext]
  exact not_mem_imageExtensions (dot_not_mem_map_lower h)

/-- Witness for C9 at the dotless name `README`. -/
theorem dotless_name_not_image_check :
    ('.' ∉ ("README" : String).data) ∧
    isImageFile { name := "README", sha := none } = false :=
  ⟨by decide, dotless_name_not_image { name := "README", sha := none } (by decide)⟩

/-- C10: for a sort key other than date and name, `sortImages` leaves the
collection order unchanged while still overwriting `currentSort` with the
key; and no call to `sortImages` with any key modifies a record — the date
and name sorts permute the collection and set `currentSort`, nothing
more. -/
theorem sortImages_frame (s : GalleryState) (key : String)
    (hd : key ≠ "date") (hn : key ≠ "name") :
    (sortImages key s).images = s.images ∧
    (sortImages key s).currentSort = key ∧
    (sortImages "date" s).currentSort = "date" ∧
    (sortImages "name" s).currentSort = "name" ∧
    List.Perm (sortImages "date" s).images s.images ∧
    List.Perm (sortImages "name" s).images s.images := by
  refine ⟨?_, ?_, rfl, rfl, jsSortBy_perm _ _, jsSortBy_perm _ _⟩
  · simp [sortImages, hd, hn]
  · simp [sortImages, hd, hn]

/-- Witness for C10 at the key `size` on a concrete collection. -/
theorem sortImages_frame_check :
    ("size" : String) ≠ "date" ∧ ("size" : String) ≠ "name" ∧
    ((sortImages "size" witnessState).images = witnessState.images ∧
      (sortImages "size" witnessState).currentSort = "size" ∧
      (sortImages "date" witnessState).currentSort = "date" ∧
      (sortImages "name" witnessState).currentSort = "name" ∧
      List.Perm (sortImages "date" witnessState).images witnessState.images ∧
      List.Perm (sortImages "name" witnessState).images witnessState.images) :=
  ⟨by decide, by decide,
    sortImages_frame witnessState "size" (by decide) (by decide)⟩

end ArtGallery
